import Mathlib

/-!
Shallow embedding of the CloudLabCI-CD powder package
(src/powder/experiment.py and src/powder/ssh.py).

Python strings are modelled as Lean String, the values produced by
xmltodict.parse as the inductive MVal, Python dicts keyed by strings as
association lists with first-match lookup and in-place-update insertion
(matching dict assignment), and the external transport (powder/rpc.py is
not part of src; its call contract comes from the spec, section 6) as
explicit oracle arguments.  Environment variables are the SSHEnv record.
Exceptions are modelled with Except and explicit Bool flags.
-/

namespace Powder

/-- Python s.startswith(p), on explicit character lists (needle first). -/
def charsPre : List Char → List Char → Bool
  | [], _ => true
  | _ :: _, [] => false
  | a :: n, b :: h => a == b && charsPre n h

/-- Python p in s (substring containment), needle first. -/
def charsSub (n : List Char) : List Char → Bool
  | [] => n.isEmpty
  | b :: h => charsPre n (b :: h) || charsSub n h

/-- Python s.startswith(p). -/
def strStarts (s p : String) : Bool := charsPre p.data s.data

/-- Python p in s. -/
def strContains (s p : String) : Bool := charsSub p.data s.data

/-- Python s.strip(): drop leading and trailing whitespace. -/
def pyStrip (s : String) : String :=
  ⟨((s.data.dropWhile Char.isWhitespace).reverse.dropWhile Char.isWhitespace).reverse⟩

/-- Values produced by xmltodict.parse: strings, dictionaries with string
keys, and lists. -/
inductive MVal where
  | str (s : String)
  | dict (entries : List (String × MVal))
  | list (items : List MVal)

/-- Python dict.get(key) on the assoc-list representation (keys of real
xmltodict dicts are unique; lookup takes the first binding). -/
def dGet : List (String × MVal) → String → Option MVal
  | [], _ => none
  | (k, v) :: t, key => if k = key then some v else dGet t key

/-- Python truthiness of an xmltodict value: empty string, empty dict and
empty list are falsy. -/
def truthyV : MVal → Bool
  | .str s => !s.isEmpty
  | .dict d => !d.isEmpty
  | .list l => !l.isEmpty

/-- Python truthiness of dict.get's result: None is falsy. -/
def truthyO : Option MVal → Bool
  | none => false
  | some v => truthyV v

/-- Python truthiness of an optional environment string. -/
def truthyS : Option String → Bool
  | none => false
  | some s => !s.isEmpty

/-- Normalisation at experiment.py:236-239: a non-list node entry is
wrapped into a one-element list before iterating. -/
def asList : MVal → List MVal
  | .list l => l
  | v => [v]

/-- Python dict assignment d[k] = v on an assoc list: replace the first
binding of k in place, otherwise append at the end. -/
def insertD {V : Type} : List (String × V) → String → V → List (String × V)
  | [], k, v => [(k, v)]
  | (k', v') :: t, k, v =>
    if k' = k then (k, v) :: t else (k', v') :: insertD t k v

/-! SSHConnection (src/powder/ssh.py). -/

/-- Environment variables read by powder/ssh.py; certExists models
os.path.exists on the CERT path. -/
structure SSHEnv where
  user : Option String
  keypword : Option String
  cert : Option String
  certExists : Bool

/-- Exceptions SSHConnection.__init__ can raise (ssh.py:24-49). -/
inductive InitErr where
  | noUsername
  | certMissing
  | certFileMissing
  deriving DecidableEq

/-- Attribute state of an SSHConnection right after __init__
(ssh.py:24-49).  username is an Option because the explicit-username
branch of __init__ never assigns the attribute: none means the attribute
does not exist and reading it raises AttributeError. -/
structure SSHInitData where
  prompt : String
  ip_address : String
  username : Option String
  password : Option String
  cert_path : String

def defaultPrompt : String := "\\$"

/-- SSHConnection.__init__ (ssh.py:24-49). -/
def sshInit (env : SSHEnv) (ip : String) (usernameArg : Option String)
    (promptArg : String := defaultPrompt) : Except InitErr SSHInitData :=
  let uname : Except InitErr (Option String) :=
    match usernameArg with
    | none =>
      match env.user with
      | some u => .ok (some u)
      | none => .error .noUsername
    | some _ => .ok none
  match uname with
  | .error e => .error e
  | .ok u =>
    match env.cert with
    | none => .error .certMissing
    | some c =>
      if c.isEmpty then .error .certMissing
      else if !env.certExists then .error .certFileMissing
      else .ok ⟨promptArg, ip, u, env.keypword, c⟩

/-- Whether constructing SSHConnection(ip_address=...) with the default
username argument succeeds in this environment; Node.__init__
(experiment.py:375-379) performs exactly this construction, and the ip
value plays no role in success. -/
def sshInitOk (env : SSHEnv) : Bool :=
  match sshInit env "" none with
  | .ok _ => true
  | .error _ => false

/-- Result of the nested expect([prompt, permission denied]) after sending
the key passphrase (ssh.py:101, 139); exn models a pexpect exception
(neither pattern before the timeout) caught by the per-attempt except
clause at ssh.py:159. -/
inductive AuthRace where
  | prompt | denied | exn

/-- Result of the expect after answering the host-key confirmation
(ssh.py:125-132). -/
inductive HostKeyRace where
  | prompt | password | passphrase (l : AuthRace) | denied | eof | timeout | exn

/-- Outcome of one connect attempt: the seven-way expect at ssh.py:74-82,
with nested oracle data for the passphrase and host-key branches; exn
models a pexpect exception raised by spawn or expect, caught at
ssh.py:159. -/
inductive Attempt where
  | prompt | password | passphrase (j : AuthRace) | denied
  | hostkey (k : HostKeyRace) | eof | timeout | exn

/-- The distinct errors open() can raise, plus connectionFailed for
retry exhaustion and attributeError for the read of the never-assigned
username attribute. -/
inductive OpenError where
  | userPassword | passphraseAuthFailed | passphraseRequired | permissionDenied
  | userPasswordAfterHostKey | passphraseAuthFailedAfterHostKey
  | passphraseRequiredAfterHostKey | permissionDeniedAfterHostKey
  | connectionFailed | attributeError
  deriving DecidableEq

/-- Result of open(): success or error, together with the list of backoff
sleeps (in seconds) performed, in order. -/
inductive OpenResult where
  | ok (sleeps : List Nat)
  | error (e : OpenError) (sleeps : List Nat)
  deriving DecidableEq

inductive StepResult where
  | success | fail (e : OpenError) | retry
  deriving DecidableEq

/-- The body of one iteration of the connect loop (ssh.py:68-162), as a
function of whether a key passphrase is configured and of the attempt
outcome; retry means control falls through to the retry bookkeeping. -/
def attemptStep (hasPassword : Bool) : Attempt → StepResult
  | .prompt => .success
  | .password => .fail .userPassword
  | .passphrase j =>
    if hasPassword then
      match j with
      | .prompt => .success
      | .denied => .fail .passphraseAuthFailed
      | .exn => .retry
    else .fail .passphraseRequired
  | .denied => .fail .permissionDenied
  | .hostkey k =>
    match k with
    | .prompt => .success
    | .password => .fail .userPasswordAfterHostKey
    | .passphrase l =>
      if hasPassword then
        match l with
        | .prompt => .success
        | .denied => .fail .passphraseAuthFailedAfterHostKey
        | .exn => .retry
      else .fail .passphraseRequiredAfterHostKey
    | .denied => .fail .permissionDeniedAfterHostKey
    | .eof => .retry
    | .timeout => .retry
    | .exn => .retry
  | .eof => .retry
  | .timeout => .retry
  | .exn => .retry

def maxRetries : Nat := 4
def backoffUnit : Nat := 2

/-- The while loop of open() (ssh.py:68-174): fuel counts the remaining
iterations (maxRetries - retry_count), rc is retry_count; after a failed
attempt the loop sleeps (retry_count + 1) * 2 seconds unless the budget is
exhausted. -/
def openLoopAux (hasPassword : Bool) (oracle : Nat → Attempt) :
    Nat → Nat → List Nat → OpenResult
  | 0, _, sleeps => .error .connectionFailed sleeps
  | fuel + 1, rc, sleeps =>
    match attemptStep hasPassword (oracle rc) with
    | .success => .ok sleeps
    | .fail e => .error e sleeps
    | .retry =>
      if rc + 1 < maxRetries then
        openLoopAux hasPassword oracle fuel (rc + 1)
          (sleeps ++ [(rc + 1) * backoffUnit])
      else openLoopAux hasPassword oracle fuel (rc + 1) sleeps

/-- SSHConnection.open (ssh.py:51-174).  Building the ssh command line
reads self.username; when __init__ never assigned it this read raises
AttributeError before any connection attempt. -/
def sshOpen (d : SSHInitData) (oracle : Nat → Attempt) : OpenResult :=
  match d.username with
  | none => .error .attributeError []
  | some _ => openLoopAux (truthyS d.password) oracle maxRetries 0 []

/-- Outcome of the expect inside command() (ssh.py:191): the expected
marker, end-of-stream, timeout, or some other pexpect exception that is
logged and re-raised. -/
inductive CmdRace where
  | matched | eof | timeout | exn

inductive CmdError where
  | notOpen | aborted | timedOut | pexpectRaised
  deriving DecidableEq

/-- Result of command(): the returned value or error, whether sendline was
executed, and whether the channel is open afterwards. -/
structure CmdResult where
  result : Except CmdError String
  sentLine : Bool
  openAfter : Bool

/-- SSHConnection.command (ssh.py:177-208).  chanOpen models the check
(self.ssh and not self.ssh.closed); before is the pexpect pre-match buffer
supplied by the oracle; command never closes the channel. -/
def sshCommand (chanOpen : Bool) (before : String) (race : CmdRace) :
    CmdResult :=
  if !chanOpen then ⟨.error .notOpen, false, chanOpen⟩
  else
    match race with
    | .matched => ⟨.ok before, true, chanOpen⟩
    | .eof => ⟨.error .aborted, true, chanOpen⟩
    | .timeout => ⟨.error .timedOut, true, chanOpen⟩
    | .exn => ⟨.error .pexpectRaised, true, chanOpen⟩

/-- Outcome of the external scp process run by _run_scp. -/
inductive ScpOutcome where
  | exitStatus (code : Nat) (output : String) | timeout | raised

inductive ScpErr where
  | fileNotFound | attributeError
  deriving DecidableEq

/-- SSHConnection._run_scp (ssh.py:234-275): true iff exit status 0; every
failure path returns False rather than raising. -/
def runScp : ScpOutcome → Bool
  | .exitStatus 0 _ => true
  | .exitStatus _ _ => false
  | .timeout => false
  | .raised => false

/-- SSHConnection.copy_to (ssh.py:210-222): the local existence check runs
first, then the scp command line reads self.username. -/
def copyTo (d : SSHInitData) (localExists : Bool) (run : ScpOutcome) :
    Except ScpErr Bool :=
  if !localExists then .error .fileNotFound
  else
    match d.username with
    | none => .error .attributeError
    | some _ => .ok (runScp run)

/-- SSHConnection.copy_from (ssh.py:224-232): the scp command line reads
self.username before anything else. -/
def copyFrom (d : SSHInitData) (run : ScpOutcome) : Except ScpErr Bool :=
  match d.username with
  | none => .error .attributeError
  | some _ => .ok (runScp run)

/-! PowderExperiment (src/powder/experiment.py). -/

/-- The seven status constants of PowderExperiment (experiment.py:35-41). -/
inductive ExpStatus where
  | notStarted | provisioning | provisioned | ready | failed | null | unknown
  deriving DecidableEq

/-- One node record (experiment.py:364-379); the ssh handle is built from
the environment alone and carries no data the claims depend on. -/
structure NodeRec where
  client_id : String
  ip_address : MVal
  hostname : MVal

/-- The nodes lookup table, with Python dict assignment semantics. -/
abbrev NodeMap := List (String × NodeRec)

/-- A parsed xmltodict manifest document; xmltodict.parse always returns a
dictionary at top level. -/
abbrev Mdoc := List (String × MVal)

/-- The mutable attributes of PowderExperiment that the claims concern. -/
structure Exp where
  status : ExpStatus
  still_provisioning : Bool
  nodes : NodeMap
  manifests : Option (List Mdoc)

/-- Modelled from the spec: powder/rpc.py is not under src; section 6
fixes the transport contract as a (code, payload) pair where the payload
carries an output text field, code 0 (success) meaning success, with the
distinguishable RESPONSE_BADARGS and RESPONSE_ERROR failure codes that
experiment.py:299 tests for. -/
inductive RspCode where
  | success | badargs | error | other
  deriving DecidableEq

/-- Modelled from the spec: one transport call result (code, payload with
output text), per the section 6 contract. -/
structure RpcResult where
  code : RspCode
  output : String

/-- Everything one _get_status call consumes from the outside world: the
status rpc result and, in case the ready branch fetches manifests, the
value _get_manifests would leave in self._manifests (none on any fetch or
decode failure, all of which _get_manifests swallows). -/
structure StatusCall where
  rpc : RpcResult
  manifestFetch : Option (List Mdoc)

/-- Last step of node-entry processing (experiment.py:277-281): the dict
assignment needs a hashable (string) client id and Node construction runs
SSHConnection.__init__; any exception is caught by the surrounding
try/except at experiment.py:283-285, turning the entry into a skip. -/
def mkNodeAndAdd (env : SSHEnv) (nodes : NodeMap)
    (cid ipv nm : Option MVal) : NodeMap :=
  match cid, ipv, nm with
  | some (.str c), some i, some h =>
    if sshInitOk env then insertD nodes c ⟨c, i, h⟩ else nodes
  | _, _, _ => nodes

/-- Node-entry processing (experiment.py:243-285): non-dict entries and
entries with falsy client id, missing or non-dict host, or falsy name or
ipv4 are skipped; the body never lets an exception escape. -/
def processNodeEntry (env : SSHEnv) (nodes : NodeMap) (n : MVal) : NodeMap :=
  match n with
  | .dict d =>
    let cid := dGet d "@client_id"
    let hostData := dGet d "host"
    if !truthyO cid then nodes
    else
      match hostData with
      | some (.dict hd) =>
        let nm := dGet hd "@name"
        let ipv := dGet hd "@ipv4"
        if !truthyO nm then nodes
        else if !truthyO ipv then nodes
        else mkNodeAndAdd env nodes cid ipv nm
      | _ => nodes
  | _ => nodes

/-- The inner loop over (normalised) node entries (experiment.py:243). -/
def processNodesData (env : SSHEnv) (nodes : NodeMap) (nd : MVal) : NodeMap :=
  (asList nd).foldl (processNodeEntry env) nodes

/-- One manifest (experiment.py:219-241).  The Python membership test
(node not in rspec) is key membership for a dict, substring containment
for a str and element equality for a list; in the two latter cases a
membership hit leads to the subscript rspec[node] which raises TypeError
(second component true), uncaught at this level. -/
def processManifest (env : SSHEnv) (nodes : NodeMap) (m : Mdoc) :
    NodeMap × Bool :=
  match dGet m "rspec" with
  | none => (nodes, false)
  | some (.dict rd) =>
    match dGet rd "node" with
    | none => (nodes, false)
    | some nd => (processNodesData env nodes nd, false)
  | some (.str s) => (nodes, strContains s "node")
  | some (.list l) =>
    (nodes, l.any (fun v => match v with | .str s => s == "node" | _ => false))

/-- The manifest loop of _parse_manifests; a raise aborts the loop with
the nodes accumulated so far (Python mutates self.nodes in place). -/
def parseMList (env : SSHEnv) : NodeMap → List Mdoc → NodeMap × Bool
  | nodes, [] => (nodes, false)
  | nodes, m :: t =>
    let pr := processManifest env nodes m
    if pr.2 then (pr.1, true) else parseMList env pr.1 t

/-- _parse_manifests (experiment.py:208-288) applied to a given
self._manifests value; the Bool is true when a manifest-level subscript
raises (propagating out of the method).  A None manifests attribute is
skipped; an empty list also adds nothing. -/
def parseAllManifests (env : SSHEnv) (nodes : NodeMap) :
    Option (List Mdoc) → NodeMap × Bool
  | none => (nodes, false)
  | some ms => parseMList env nodes ms

/-- _get_status (experiment.py:290-361).  The ready branch fetches and
parses manifests only when the node map is empty; an exception from the
parse is caught and turns the new status into failed. -/
def getStatus (env : SSHEnv) (s : Exp) (c : StatusCall) : Exp :=
  if c.rpc.code = .badargs ∨
      (c.rpc.code = .error ∧ strContains c.rpc.output "No such experiment") then
    { s with status := .notStarted, still_provisioning := false,
             nodes := [], manifests := none }
  else if c.rpc.code ≠ .success then
    { s with status := .unknown, still_provisioning := false }
  else
    let out := pyStrip c.rpc.output
    if strStarts out "Status: ready" then
      if s.nodes.isEmpty then
        let pr := parseAllManifests env s.nodes c.manifestFetch
        { s with status := if pr.2 then .failed else .ready,
                 still_provisioning := false,
                 nodes := pr.1, manifests := c.manifestFetch }
      else { s with status := .ready, still_provisioning := false }
    else if strStarts out "Status: provisioning" then
      { s with status := .provisioning, still_provisioning := true }
    else if strStarts out "Status: provisioned" then
      { s with status := .provisioned, still_provisioning := true }
    else if strStarts out "Status: failed" then
      { s with status := .failed, still_provisioning := false }
    else if strContains out "UUID:" then
      { s with status := .provisioning, still_provisioning := true }
    else { s with status := .unknown, still_provisioning := false }

/-- PowderExperiment.terminate (experiment.py:159-169): on transport
success the status is forced to null; otherwise only logging happens (the
payload always carries the output field read at experiment.py:167, per the
section 6 transport contract) and the state is returned unchanged. -/
def terminateStep (s : Exp) (r : RpcResult) : Exp :=
  if r.code = .success then { s with status := .null } else s

/-- PowderExperiment.__init__ (experiment.py:47-63); names longer than 16
characters call sys.exit(1), modelled as none. -/
def initExperiment (experiment_name : String) : Option Exp :=
  if experiment_name.length > 16 then none
  else some { status := .notStarted, still_provisioning := false,
              nodes := [], manifests := none }

/-- The freshly constructed experiment state. -/
def initExp : Exp :=
  { status := .notStarted, still_provisioning := false,
    nodes := [], manifests := none }

/-- Everything one start_and_wait call consumes from the outside world:
the stream of status-call data (consumed in order by each _get_status),
the start_experiment result, the terminate_experiment result used by the
failed-state branch, and the manifests a re-fetch at experiment.py:83 or
experiment.py:142 would produce (at most one of the two can run). -/
structure SWOracle where
  statusCalls : Nat → StatusCall
  startResult : RpcResult
  termResult : RpcResult
  refetch : Option (List Mdoc)

/-- The loop condition at experiment.py:124. -/
def pollingStatus : ExpStatus → Bool
  | .provisioning => true
  | .provisioned => true
  | .notStarted => true
  | .unknown => true
  | _ => false

/-- The wait loop (experiment.py:122-132): while the status is one of the
four non-terminal values and polls remain, sleep and call _get_status.
fuel is the remaining poll budget, i the index of the next status call. -/
def waitLoop (env : SSHEnv) (calls : Nat → StatusCall) :
    Nat → Nat → Exp → Exp
  | 0, _, s => s
  | fuel + 1, i, s =>
    if pollingStatus s.status then
      waitLoop env calls fuel (i + 1) (getStatus env s (calls i))
    else s

/-- The final status check after the wait loop (experiment.py:134-155);
the failed case was already handled when the catch-all row is reached, so
only null escapes being forced to failed.  The second component counts
manifest re-fetches performed here. -/
def finalizeWait (env : SSHEnv) (refetch : Option (List Mdoc)) (s : Exp) :
    Exp × Nat :=
  match s.status with
  | .ready =>
    if s.nodes.isEmpty then
      let pr := parseAllManifests env s.nodes refetch
      if pr.2 then
        ({ s with status := .failed, nodes := pr.1, manifests := refetch }, 1)
      else if pr.1.isEmpty then
        ({ s with status := .failed, nodes := pr.1, manifests := refetch }, 1)
      else ({ s with nodes := pr.1, manifests := refetch }, 1)
    else (s, 0)
  | .failed => (s, 0)
  | st => (if st = .null then s else { s with status := .failed }, 0)

/-- PowderExperiment.start_and_wait (experiment.py:72-157), returning the
final state and the number of manifest re-fetches performed at
experiment.py:83 or experiment.py:142.  The trailing else at
experiment.py:99-101 is dead code because the four preceding branches
cover all seven status constants.  The early ready branch re-fetches once
when the node map is empty and fails only when the re-parse raises; the
start block runs exactly when the status after the first check (and the
optional terminate) is neither provisioning nor provisioned. -/
def startAndWait (env : SSHEnv) (pollMax : Nat) (s : Exp) (o : SWOracle) :
    Exp × Nat :=
  let s1 := getStatus env s (o.statusCalls 0)
  match s1.status with
  | .ready =>
    if s1.nodes.isEmpty then
      let pr := parseAllManifests env s1.nodes o.refetch
      if pr.2 then
        ({ s1 with status := .failed, nodes := pr.1, manifests := o.refetch }, 1)
      else ({ s1 with nodes := pr.1, manifests := o.refetch }, 1)
    else (s1, 0)
  | st =>
    let s2 := if st = .failed then terminateStep s1 o.termResult else s1
    if s2.status ≠ .provisioning ∧ s2.status ≠ .provisioned then
      if o.startResult.code ≠ .success then ({ s2 with status := .failed }, 0)
      else
        let s3 := getStatus env s2 (o.statusCalls 1)
        if s3.status = .failed then (s3, 0)
        else finalizeWait env o.refetch (waitLoop env o.statusCalls pollMax 2 s3)
    else finalizeWait env o.refetch (waitLoop env o.statusCalls pollMax 1 s2)

/-- PowderExperiment.check_status (experiment.py:65-70) just runs
_get_status; the public operations an Experiment Controller exposes. -/
inductive ExpOp where
  | check (c : StatusCall)
  | wait (pollMax : Nat) (o : SWOracle)
  | term (r : RpcResult)

def applyOp (env : SSHEnv) (s : Exp) : ExpOp → Exp
  | .check c => getStatus env s c
  | .wait pollMax o => (startAndWait env pollMax s o).1
  | .term r => terminateStep s r

def runOps (env : SSHEnv) (s : Exp) (ops : List ExpOp) : Exp :=
  ops.foldl (applyOp env) s

/-! Generic lemmas about association lists under Python dict assignment. -/

section MapLemmas

variable {V : Type}

/-- Fold of Python dict assignments over a list of key-value pairs. -/
def runIns (m : List (String × V)) (ps : List (String × V)) :
    List (String × V) :=
  ps.foldl (fun acc p => insertD acc p.1 p.2) m

/-- The value of the last binding of a key in a pair list, if any. -/
def finalVal : List (String × V) → String → Option V
  | [], _ => none
  | (k', v') :: t, k =>
    match finalVal t k with
    | some w => some w
    | none => if k' = k then some v' else none

/-- First-match lookup, like Python dict indexing. -/
def lookupD : List (String × V) → String → Option V
  | [], _ => none
  | (k', v') :: t, k => if k' = k then some v' else lookupD t k

def keysOf (m : List (String × V)) : List String := m.map Prod.fst

/-- Replace the value of every binding of k (at most one in a nodup map). -/
def replV (m : List (String × V)) (k : String) (v : V) : List (String × V) :=
  m.map (fun e => if e.1 = k then (k, v) else e)

theorem runIns_nil (m : List (String × V)) : runIns m [] = m := rfl

theorem runIns_cons (m : List (String × V)) (p : String × V)
    (ps : List (String × V)) :
    runIns m (p :: ps) = runIns (insertD m p.1 p.2) ps := rfl

theorem runIns_append (m : List (String × V)) (ps qs : List (String × V)) :
    runIns m (ps ++ qs) = runIns (runIns m ps) qs := by
  simp [runIns, List.foldl_append]

theorem keysOf_nil : keysOf ([] : List (String × V)) = [] := rfl

theorem keysOf_cons (e : String × V) (t : List (String × V)) :
    keysOf (e :: t) = e.1 :: keysOf t := rfl

theorem keysOf_append (m n : List (String × V)) :
    keysOf (m ++ n) = keysOf m ++ keysOf n := by
  simp [keysOf]

theorem mem_keysOf_of_mem {m : List (String × V)} {k : String} {v : V}
    (h : (k, v) ∈ m) : k ∈ keysOf m := by
  induction m with
  | nil => cases h
  | cons e t ih =>
    rcases List.mem_cons.mp h with h1 | h1
    · subst h1
      exact List.mem_cons_self _ _
    · exact List.mem_cons_of_mem _ (ih h1)

theorem insertD_notmem (m : List (String × V)) (k : String) (v : V)
    (h : k ∉ keysOf m) : insertD m k v = m ++ [(k, v)] := by
  induction m with
  | nil => rfl
  | cons e t ih =>
    obtain ⟨k₁, v₁⟩ := e
    rw [keysOf_cons, List.mem_cons, not_or] at h
    rw [insertD, if_neg (fun hh => h.1 hh.symm), ih h.2]
    rfl

theorem replV_cons (k₁ : String) (v₁ : V) (t : List (String × V))
    (k : String) (v : V) :
    replV ((k₁, v₁) :: t) k v =
      (if k₁ = k then (k, v) else (k₁, v₁)) :: replV t k v := rfl

theorem keysOf_replV (m : List (String × V)) (k : String) (v : V) :
    keysOf (replV m k v) = keysOf m := by
  induction m with
  | nil => rfl
  | cons e t ih =>
    obtain ⟨k₁, v₁⟩ := e
    rw [replV_cons]
    by_cases h : k₁ = k
    · rw [if_pos h, keysOf_cons, keysOf_cons, ih, h]
    · rw [if_neg h, keysOf_cons, keysOf_cons, ih]

theorem replV_notmem {m : List (String × V)} {k : String} (v : V)
    (h : k ∉ keysOf m) : replV m k v = m := by
  induction m with
  | nil => rfl
  | cons e t ih =>
    obtain ⟨k₁, v₁⟩ := e
    rw [keysOf_cons, List.mem_cons, not_or] at h
    rw [replV_cons, if_neg (fun hh => h.1 hh.symm), ih h.2]

theorem insertD_eq_replV {m : List (String × V)} {k : String} (v : V)
    (hnd : (keysOf m).Nodup) (h : k ∈ keysOf m) :
    insertD m k v = replV m k v := by
  induction m with
  | nil => cases h
  | cons e t ih =>
    obtain ⟨k₁, v₁⟩ := e
    rw [keysOf_cons] at h hnd
    by_cases hk : k₁ = k
    · subst hk
      rw [insertD, if_pos rfl, replV_cons, if_pos rfl,
          replV_notmem v (List.nodup_cons.mp hnd).1]
    · rcases List.mem_cons.mp h with h1 | h1
      · exact absurd h1.symm hk
      · rw [insertD, if_neg hk, replV_cons, if_neg hk,
            ih (List.nodup_cons.mp hnd).2 h1]

theorem keysOf_insertD (m : List (String × V)) (k : String) (v : V)
    (hnd : (keysOf m).Nodup) :
    keysOf (insertD m k v) = if k ∈ keysOf m then keysOf m else keysOf m ++ [k] := by
  by_cases h : k ∈ keysOf m
  · rw [if_pos h, insertD_eq_replV v hnd h, keysOf_replV]
  · rw [if_neg h, insertD_notmem m k v h, keysOf_append]
    rfl

theorem nodup_keysOf_insertD (m : List (String × V)) (k : String) (v : V)
    (hnd : (keysOf m).Nodup) : (keysOf (insertD m k v)).Nodup := by
  rw [keysOf_insertD m k v hnd]
  by_cases h : k ∈ keysOf m
  · rw [if_pos h]; exact hnd
  · rw [if_neg h]
    refine List.nodup_append.mpr ⟨hnd, List.nodup_singleton k, ?_⟩
    intro a ha hb
    rcases List.mem_singleton.mp hb with rfl
    exact h ha

theorem nodup_keysOf_runIns (ps : List (String × V)) :
    ∀ m : List (String × V), (keysOf m).Nodup → (keysOf (runIns m ps)).Nodup := by
  induction ps with
  | nil => intro m h; exact h
  | cons p t ih =>
    intro m h
    rw [runIns_cons]
    exact ih _ (nodup_keysOf_insertD m p.1 p.2 h)

theorem mem_keysOf_insertD_self (m : List (String × V)) (k : String) (v : V) :
    k ∈ keysOf (insertD m k v) := by
  induction m with
  | nil => simp [insertD, keysOf_cons]
  | cons e t ih =>
    obtain ⟨k₁, v₁⟩ := e
    by_cases h : k₁ = k
    · simp [insertD, h, keysOf_cons]
    · simp [insertD, h, keysOf_cons, ih]

theorem mem_keysOf_insertD_of_mem {m : List (String × V)} {a : String}
    (k : String) (v : V) (h : a ∈ keysOf m) : a ∈ keysOf (insertD m k v) := by
  induction m with
  | nil => cases h
  | cons e t ih =>
    obtain ⟨k₁, v₁⟩ := e
    rw [keysOf_cons] at h
    by_cases hk : k₁ = k
    · subst hk
      rcases List.mem_cons.mp h with rfl | h1
      · simp [insertD, keysOf_cons]
      · simp [insertD, keysOf_cons, h1]
    · rcases List.mem_cons.mp h with rfl | h1
      · simp [insertD, hk, keysOf_cons]
      · simp [insertD, hk, keysOf_cons, ih h1]

theorem mem_keysOf_runIns_of_mem (ps : List (String × V)) :
    ∀ (m : List (String × V)) (a : String), a ∈ keysOf m →
      a ∈ keysOf (runIns m ps) := by
  induction ps with
  | nil => intro m a h; exact h
  | cons p t ih =>
    intro m a h
    rw [runIns_cons]
    exact ih _ a (mem_keysOf_insertD_of_mem p.1 p.2 h)

theorem mem_keysOf_runIns (ps : List (String × V)) :
    ∀ (m : List (String × V)) (p : String × V), p ∈ ps →
      p.1 ∈ keysOf (runIns m ps) := by
  induction ps with
  | nil => intro m p h; cases h
  | cons q t ih =>
    intro m p h
    rcases List.mem_cons.mp h with rfl | h1
    · rw [runIns_cons]
      exact mem_keysOf_runIns_of_mem t _ p.1 (mem_keysOf_insertD_self m p.1 p.2)
    · rw [runIns_cons]
      exact ih _ p h1

theorem lookupD_insertD_self (m : List (String × V)) (k : String) (v : V) :
    lookupD (insertD m k v) k = some v := by
  induction m with
  | nil => simp [insertD, lookupD]
  | cons e t ih =>
    obtain ⟨k₁, v₁⟩ := e
    by_cases h : k₁ = k
    · simp [insertD, h, lookupD]
    · simp [insertD, h, lookupD, ih]

theorem lookupD_cons (k₁ : String) (v₁ : V) (t : List (String × V))
    (k : String) :
    lookupD ((k₁, v₁) :: t) k = if k₁ = k then some v₁ else lookupD t k := rfl

theorem insertD_cons (k₁ : String) (v₁ : V) (t : List (String × V))
    (k : String) (v : V) :
    insertD ((k₁, v₁) :: t) k v =
      if k₁ = k then (k, v) :: t else (k₁, v₁) :: insertD t k v := rfl

theorem lookupD_insertD_ne (m : List (String × V)) {k₂ k : String} (v₂ : V)
    (h : k₂ ≠ k) : lookupD (insertD m k₂ v₂) k = lookupD m k := by
  induction m with
  | nil =>
    show lookupD [(k₂, v₂)] k = lookupD [] k
    rw [lookupD_cons, if_neg h]
  | cons e t ih =>
    obtain ⟨k₁, v₁⟩ := e
    rw [insertD_cons]
    by_cases h1 : k₁ = k₂
    · rw [if_pos h1, lookupD_cons, lookupD_cons, if_neg h,
          if_neg (fun hh => h (h1.symm.trans hh))]
    · rw [if_neg h1, lookupD_cons, lookupD_cons]
      by_cases h2 : k₁ = k
      · rw [if_pos h2, if_pos h2]
      · rw [if_neg h2, if_neg h2, ih]

theorem finalVal_cons (k₁ : String) (v₁ : V) (t : List (String × V))
    (k : String) :
    finalVal ((k₁, v₁) :: t) k =
      match finalVal t k with
      | some w => some w
      | none => if k₁ = k then some v₁ else none := rfl

theorem finalVal_eq_none_iff (ps : List (String × V)) (k : String) :
    finalVal ps k = none ↔ k ∉ keysOf ps := by
  induction ps with
  | nil => simp [finalVal, keysOf_nil]
  | cons e t ih =>
    obtain ⟨k₁, v₁⟩ := e
    rw [keysOf_cons, finalVal_cons, List.mem_cons, not_or]
    rcases hft : finalVal t k with _ | w
    · have ht := ih.mp hft
      by_cases hk : k₁ = k
      · rw [if_pos hk]
        simp [hk.symm]
      · rw [if_neg hk]
        constructor
        · intro _
          exact ⟨fun hh => hk hh.symm, ht⟩
        · intro _
          rfl
    · have ht : k ∈ keysOf t := by
        by_contra hc
        rw [ih.mpr hc] at hft
        cases hft
      simp [ht]

theorem lookupD_runIns_notmem (ps : List (String × V)) :
    ∀ (m : List (String × V)) (k : String), k ∉ keysOf ps →
      lookupD (runIns m ps) k = lookupD m k := by
  induction ps with
  | nil => intro m k _; rfl
  | cons p t ih =>
    intro m k h
    rw [keysOf_cons, List.mem_cons, not_or] at h
    rw [runIns_cons, ih _ k h.2, lookupD_insertD_ne m p.2 (fun hh => h.1 hh.symm)]

theorem lookupD_runIns_finalVal (ps : List (String × V)) :
    ∀ (m : List (String × V)) (k : String) (w : V), finalVal ps k = some w →
      lookupD (runIns m ps) k = some w := by
  induction ps with
  | nil => intro m k w h; simp [finalVal] at h
  | cons p t ih =>
    intro m k w h
    obtain ⟨k₁, v₁⟩ := p
    rw [finalVal_cons] at h
    rcases hft : finalVal t k with _ | w'
    · rw [hft] at h
      by_cases hk : k₁ = k
      · rw [if_pos hk] at h
        obtain rfl : v₁ = w := Option.some_inj.mp h
        subst hk
        rw [runIns_cons]
        rw [lookupD_runIns_notmem t _ k₁ ((finalVal_eq_none_iff t k₁).mp hft)]
        exact lookupD_insertD_self m k₁ v₁
      · rw [if_neg hk] at h
        cases h
    · rw [hft] at h
      obtain rfl : w' = w := Option.some_inj.mp h
      rw [runIns_cons]
      exact ih _ k w' hft

theorem lookupD_entry (m : List (String × V)) (k : String) (v : V)
    (hnd : (keysOf m).Nodup) (h : (k, v) ∈ m) : lookupD m k = some v := by
  induction m with
  | nil => cases h
  | cons e t ih =>
    obtain ⟨k₁, v₁⟩ := e
    rw [keysOf_cons] at hnd
    rcases List.mem_cons.mp h with h1 | h1
    · obtain ⟨rfl, rfl⟩ := Prod.mk.injEq k v k₁ v₁ ▸ h1
      rw [lookupD_cons, if_pos rfl]
    · have hk : k₁ ≠ k := by
        intro hh
        subst hh
        exact (List.nodup_cons.mp hnd).1 (mem_keysOf_of_mem h1)
      rw [lookupD_cons, if_neg hk]
      exact ih (List.nodup_cons.mp hnd).2 h1

theorem map_fix {α : Type} (g : α → α) :
    ∀ l : List α, (∀ a ∈ l, g a = a) → l.map g = l := by
  intro l
  induction l with
  | nil => intro _; rfl
  | cons a t ih =>
    intro h
    rw [List.map_cons, h a (List.mem_cons_self a t),
        ih (fun b hb => h b (List.mem_cons_of_mem a hb))]

theorem map_congr_mem {α β : Type} (f g : α → β) :
    ∀ l : List α, (∀ a ∈ l, f a = g a) → l.map f = l.map g := by
  intro l
  induction l with
  | nil => intro _; rfl
  | cons a t ih =>
    intro h
    rw [List.map_cons, List.map_cons, h a (List.mem_cons_self a t),
        ih (fun b hb => h b (List.mem_cons_of_mem a hb))]

theorem runIns_override (ps : List (String × V)) :
    ∀ m : List (String × V), (keysOf m).Nodup →
      (∀ p ∈ ps, p.1 ∈ keysOf m) →
      runIns m ps = m.map (fun e => (e.1, (finalVal ps e.1).getD e.2)) := by
  induction ps with
  | nil =>
    intro m _ _
    rw [runIns_nil]
    symm
    apply map_fix
    intro a _
    simp [finalVal]
  | cons p t ih =>
    intro m hnd hmem
    obtain ⟨k, v⟩ := p
    have hk : k ∈ keysOf m := hmem (k, v) (List.mem_cons_self _ _)
    rw [runIns_cons]
    dsimp only
    rw [insertD_eq_replV v hnd hk]
    have hnd' : (keysOf (replV m k v)).Nodup := by
      rw [keysOf_replV]; exact hnd
    have hmem' : ∀ q ∈ t, q.1 ∈ keysOf (replV m k v) := by
      intro q hq
      rw [keysOf_replV]
      exact hmem q (List.mem_cons_of_mem _ hq)
    rw [ih _ hnd' hmem']
    rw [replV, List.map_map]
    apply map_congr_mem
    intro a _
    obtain ⟨k₁, v₁⟩ := a
    simp only [Function.comp_apply]
    by_cases h : k₁ = k
    · subst h
      rw [if_pos rfl]
      dsimp only
      rw [finalVal_cons]
      rcases hft : finalVal t k₁ with _ | w
      · simp
      · simp
    · rw [if_neg h]
      dsimp only
      rw [finalVal_cons]
      rcases hft : finalVal t k₁ with _ | w
      · dsimp only
        rw [if_neg (fun hh => h hh.symm)]
      · rfl

theorem runIns_idem (ps : List (String × V)) :
    runIns (runIns ([] : List (String × V)) ps) ps = runIns [] ps := by
  have hnd : (keysOf (runIns ([] : List (String × V)) ps)).Nodup :=
    nodup_keysOf_runIns ps [] (by simp [keysOf_nil])
  have hmem : ∀ p ∈ ps, p.1 ∈ keysOf (runIns ([] : List (String × V)) ps) :=
    fun p hp => mem_keysOf_runIns ps [] p hp
  rw [runIns_override ps _ hnd hmem]
  apply map_fix
  intro e he
  obtain ⟨k, v⟩ := e
  rcases hf : finalVal ps k with _ | w
  · simp
  · have h1 := lookupD_runIns_finalVal ps [] k w hf
    have h2 := lookupD_entry _ k v hnd he
    rw [h1] at h2
    rcases Option.some_inj.mp h2
    simp

theorem runIns_length (ps : List (String × V)) :
    ∀ m : List (String × V), (keysOf ps).Nodup →
      (∀ p ∈ ps, p.1 ∉ keysOf m) →
      (runIns m ps).length = m.length + ps.length := by
  induction ps with
  | nil => intro m _ _; simp [runIns_nil]
  | cons p t ih =>
    intro m hnd hdis
    obtain ⟨k, v⟩ := p
    rw [keysOf_cons] at hnd
    rw [runIns_cons]
    dsimp only
    rw [insertD_notmem m k v (hdis (k, v) (List.mem_cons_self _ _))]
    have hdis' : ∀ q ∈ t, q.1 ∉ keysOf (m ++ [(k, v)]) := by
      intro q hq hmem
      rw [keysOf_append] at hmem
      rcases List.mem_append.mp hmem with h1 | h1
      · exact hdis q (List.mem_cons_of_mem _ hq) h1
      · rcases List.mem_singleton.mp h1
        exact (List.nodup_cons.mp hnd).1 (mem_keysOf_of_mem (by simpa using hq))
    rw [ih _ (List.nodup_cons.mp hnd).2 hdis']
    simp
    omega

end MapLemmas

/-! Characterisation of the manifest parser as a fold of dict inserts. -/

/-- The key-value pair processNodeEntry inserts, if any. -/
def entryPair (env : SSHEnv) : MVal → Option (String × NodeRec)
  | .dict d =>
    let cid := dGet d "@client_id"
    let hostData := dGet d "host"
    if !truthyO cid then none
    else
      match hostData with
      | some (.dict hd) =>
        let nm := dGet hd "@name"
        let ipv := dGet hd "@ipv4"
        if !truthyO nm then none
        else if !truthyO ipv then none
        else
          match cid, ipv, nm with
          | some (.str c), some i, some h =>
            if sshInitOk env then some (c, ⟨c, i, h⟩) else none
          | _, _, _ => none
      | _ => none
  | _ => none

/-- The pair a descriptor contributes in an environment where Node
construction succeeds; this is the shape-only validity of a descriptor. -/
def descriptorPair : MVal → Option (String × NodeRec)
  | .dict d =>
    let cid := dGet d "@client_id"
    let hostData := dGet d "host"
    if !truthyO cid then none
    else
      match hostData with
      | some (.dict hd) =>
        let nm := dGet hd "@name"
        let ipv := dGet hd "@ipv4"
        if !truthyO nm then none
        else if !truthyO ipv then none
        else
          match cid, ipv, nm with
          | some (.str c), some i, some h => some (c, ⟨c, i, h⟩)
          | _, _, _ => none
      | _ => none
  | _ => none

/-- Whether a node descriptor passes all the checks of the parser. -/
def validDescriptor (n : MVal) : Bool := (descriptorPair n).isSome

theorem entryPair_eq_descriptorPair (env : SSHEnv) (n : MVal)
    (henv : sshInitOk env = true) : entryPair env n = descriptorPair n := by
  cases n with
  | str s => rfl
  | list l => rfl
  | dict d =>
    unfold entryPair descriptorPair
    dsimp only
    repeat' split
    all_goals simp_all

theorem processNodeEntry_eq (env : SSHEnv) (nodes : NodeMap) (n : MVal) :
    processNodeEntry env nodes n =
      match entryPair env n with
      | some p => insertD nodes p.1 p.2
      | none => nodes := by
  cases n with
  | str s => rfl
  | list l => rfl
  | dict d =>
    rcases h : entryPair env (MVal.dict d) with _ | p
    all_goals unfold entryPair at h
    all_goals dsimp only at h
    all_goals repeat' split at h
    all_goals unfold processNodeEntry mkNodeAndAdd
    all_goals try rw [← h]
    all_goals simp_all

theorem foldl_processNodeEntry (env : SSHEnv) :
    ∀ (l : List MVal) (nodes : NodeMap),
      l.foldl (processNodeEntry env) nodes =
        runIns nodes (l.filterMap (entryPair env)) := by
  intro l
  induction l with
  | nil => intro nodes; rfl
  | cons n t ih =>
    intro nodes
    rw [List.foldl_cons, List.filterMap_cons, processNodeEntry_eq]
    rcases h : entryPair env n with _ | p
    · exact ih nodes
    · rw [runIns_cons]
      exact ih _

/-- The pairs one manifest contributes (experiment.py:219-241). -/
def manifestPairs (env : SSHEnv) (m : Mdoc) : List (String × NodeRec) :=
  match dGet m "rspec" with
  | some (.dict rd) =>
    match dGet rd "node" with
    | some nd => (asList nd).filterMap (entryPair env)
    | none => []
  | _ => []

/-- Whether the manifest-level subscript raises for this manifest. -/
def manifestRaises (m : Mdoc) : Bool :=
  match dGet m "rspec" with
  | some (.str s) => strContains s "node"
  | some (.list l) =>
    l.any (fun v => match v with | .str s => s == "node" | _ => false)
  | _ => false

theorem processManifest_eq (env : SSHEnv) (nodes : NodeMap) (m : Mdoc) :
    processManifest env nodes m =
      (if manifestRaises m then nodes else runIns nodes (manifestPairs env m),
       manifestRaises m) := by
  unfold processManifest manifestPairs manifestRaises processNodesData
  rcases dGet m "rspec" with _ | v
  · simp [runIns_nil]
  · cases v with
    | str s =>
      dsimp only
      by_cases h : strContains s "node"
      · simp [h]
      · simp [h, runIns_nil]
    | dict rd =>
      dsimp only
      rcases dGet rd "node" with _ | nd
      · simp [runIns_nil]
      · simp [foldl_processNodeEntry]
    | list l =>
      dsimp only
      by_cases h : l.any (fun v => match v with | .str s => s == "node" | _ => false)
      · simp [h]
      · simp [h, runIns_nil]

/-- The pairs a list of manifests contributes when none of them raises. -/
def docPairs (env : SSHEnv) (ms : List Mdoc) : List (String × NodeRec) :=
  ms.foldr (fun m acc => manifestPairs env m ++ acc) []

theorem parseMList_noraise (env : SSHEnv) :
    ∀ (ms : List Mdoc) (nodes : NodeMap),
      (∀ m ∈ ms, manifestRaises m = false) →
      parseMList env nodes ms = (runIns nodes (docPairs env ms), false) := by
  intro ms
  induction ms with
  | nil => intro nodes _; rfl
  | cons m t ih =>
    intro nodes h
    have hm : manifestRaises m = false := h m (List.mem_cons_self _ _)
    have ht := ih (runIns nodes (manifestPairs env m))
      (fun q hq => h q (List.mem_cons_of_mem _ hq))
    rw [parseMList, processManifest_eq, hm]
    simp only []
    rw [show docPairs env (m :: t) = manifestPairs env m ++ docPairs env t
          from rfl, runIns_append, ← ht]
    simp

theorem parseMList_result_noraise (env : SSHEnv) :
    ∀ (ms : List Mdoc) (nodes : NodeMap),
      (parseMList env nodes ms).2 = false →
      ∀ m ∈ ms, manifestRaises m = false := by
  intro ms
  induction ms with
  | nil => intro nodes _ m hm; cases hm
  | cons q t ih =>
    intro nodes h m hm
    rw [parseMList, processManifest_eq] at h
    by_cases hq : manifestRaises q
    · rw [if_pos (by simp [hq])] at h
      simp at h
    · rw [if_neg (by simp [hq])] at h
      rcases List.mem_cons.mp hm with rfl | h1
      · simpa using hq
      · exact ih _ h m h1

/-- Counting helper: pairs kept by filterMap. -/
theorem length_filterMap_countP {α β : Type} (f : α → Option β) :
    ∀ l : List α, (l.filterMap f).length = l.countP (fun a => (f a).isSome) := by
  intro l
  induction l with
  | nil => rfl
  | cons a t ih =>
    rw [List.filterMap_cons, List.countP_cons]
    rcases h : f a with _ | b
    · simp [h, ih]
    · simp [h, ih]

theorem countP_add_countP_not {α : Type} (p : α → Bool) :
    ∀ l : List α, l.countP p + l.countP (fun a => !(p a)) = l.length := by
  intro l
  induction l with
  | nil => rfl
  | cons a t ih =>
    rw [List.countP_cons, List.countP_cons]
    by_cases h : p a
    · simp [h]
      omega
    · simp [h]
      omega

/-! Lemmas about the experiment state machine. -/

theorem getStatus_ne_null (env : SSHEnv) (s : Exp) (c : StatusCall) :
    (getStatus env s c).status ≠ .null := by
  unfold getStatus
  repeat' split
  all_goals try simp_all
  all_goals repeat' split
  all_goals simp_all

theorem getStatus_notStarted_nodes (env : SSHEnv) (s : Exp) (c : StatusCall) :
    (getStatus env s c).status = .notStarted → (getStatus env s c).nodes = [] := by
  unfold getStatus
  repeat' split
  all_goals intro h
  all_goals dsimp only at h ⊢
  all_goals repeat' split at h
  all_goals simp_all

theorem waitLoop_ne_null (env : SSHEnv) (calls : Nat → StatusCall) :
    ∀ (fuel i : Nat) (s : Exp), s.status ≠ .null →
      (waitLoop env calls fuel i s).status ≠ .null := by
  intro fuel
  induction fuel with
  | zero => intro i s h; exact h
  | succ f ih =>
    intro i s h
    rw [waitLoop]
    by_cases hp : pollingStatus s.status
    · rw [if_pos hp]
      exact ih (i + 1) _ (getStatus_ne_null env _ (calls i))
    · rw [if_neg hp]
      exact h

theorem finalizeWait_terminal (env : SSHEnv) (refetch : Option (List Mdoc))
    (s : Exp) (h : s.status ≠ .null) :
    (finalizeWait env refetch s).1.status = .ready ∨
      (finalizeWait env refetch s).1.status = .failed := by
  unfold finalizeWait
  rcases hs : s.status
  all_goals simp_all
  all_goals repeat' split
  all_goals simp_all

theorem startAndWait_terminal (env : SSHEnv) (pollMax : Nat) (s : Exp)
    (o : SWOracle) :
    (startAndWait env pollMax s o).1.status = .ready ∨
      (startAndWait env pollMax s o).1.status = .failed := by
  unfold startAndWait
  have h1 := getStatus_ne_null env s (o.statusCalls 0)
  generalize hg : getStatus env s (o.statusCalls 0) = s1 at h1 ⊢
  obtain ⟨st, sp, nds, mf⟩ := s1
  simp only [] at h1
  cases st
  case null => exact absurd rfl h1
  case ready =>
    dsimp only
    repeat' split
    all_goals simp_all
  -- in the five remaining cases the start block runs unless the status is
  -- provisioning or provisioned, and every state entering the wait loop
  -- has non-null status, so finalizeWait yields ready or failed
  case failed =>
    dsimp only
    rw [if_pos rfl]
    have hterm : (terminateStep ⟨ExpStatus.failed, sp, nds, mf⟩
        o.termResult).status ≠ ExpStatus.provisioning ∧
        (terminateStep ⟨ExpStatus.failed, sp, nds, mf⟩
          o.termResult).status ≠ ExpStatus.provisioned := by
      unfold terminateStep
      split
      · simp
      · simp
    rw [if_pos hterm]
    split
    · simp
    · split
      · simp_all
      · exact finalizeWait_terminal env o.refetch _
          (waitLoop_ne_null env o.statusCalls pollMax 2 _
            (getStatus_ne_null env _ (o.statusCalls 1)))
  case provisioning =>
    dsimp only
    rw [if_neg (show ExpStatus.provisioning ≠ ExpStatus.failed from by decide)]
    dsimp only
    rw [if_neg (show ¬(ExpStatus.provisioning ≠ ExpStatus.provisioning ∧
          ExpStatus.provisioning ≠ ExpStatus.provisioned) from by decide)]
    refine finalizeWait_terminal env o.refetch _
      (waitLoop_ne_null env o.statusCalls pollMax 1 _ ?_)
    simp
  case provisioned =>
    dsimp only
    rw [if_neg (show ExpStatus.provisioned ≠ ExpStatus.failed from by decide)]
    dsimp only
    rw [if_neg (show ¬(ExpStatus.provisioned ≠ ExpStatus.provisioning ∧
          ExpStatus.provisioned ≠ ExpStatus.provisioned) from by decide)]
    refine finalizeWait_terminal env o.refetch _
      (waitLoop_ne_null env o.statusCalls pollMax 1 _ ?_)
    simp
  case notStarted =>
    dsimp only
    rw [if_neg (show ExpStatus.notStarted ≠ ExpStatus.failed from by decide)]
    dsimp only
    rw [if_pos (show ExpStatus.notStarted ≠ ExpStatus.provisioning ∧
          ExpStatus.notStarted ≠ ExpStatus.provisioned from by decide)]
    split
    · simp
    · split
      · simp_all
      · exact finalizeWait_terminal env o.refetch _
          (waitLoop_ne_null env o.statusCalls pollMax 2 _
            (getStatus_ne_null env _ (o.statusCalls 1)))
  case unknown =>
    dsimp only
    rw [if_neg (show ExpStatus.unknown ≠ ExpStatus.failed from by decide)]
    dsimp only
    rw [if_pos (show ExpStatus.unknown ≠ ExpStatus.provisioning ∧
          ExpStatus.unknown ≠ ExpStatus.provisioned from by decide)]
    split
    · simp
    · split
      · simp_all
      · exact finalizeWait_terminal env o.refetch _
          (waitLoop_ne_null env o.statusCalls pollMax 2 _
            (getStatus_ne_null env _ (o.statusCalls 1)))

theorem runOps_inv (env : SSHEnv) :
    ∀ (ops : List ExpOp) (s : Exp),
      (s.status = ExpStatus.notStarted → s.nodes = []) →
      ((runOps env s ops).status = ExpStatus.notStarted →
        (runOps env s ops).nodes = []) := by
  intro ops
  induction ops with
  | nil => intro s h; exact h
  | cons op t ih =>
    intro s h
    show (runOps env (applyOp env s op) t).status = ExpStatus.notStarted →
      (runOps env (applyOp env s op) t).nodes = []
    apply ih
    cases op with
    | check c => exact getStatus_notStarted_nodes env s c
    | wait pollMax o =>
      intro hns
      rcases startAndWait_terminal env pollMax s o with hr | hr
      all_goals rw [show applyOp env s (ExpOp.wait pollMax o) =
        (startAndWait env pollMax s o).1 from rfl] at hns
      all_goals rw [hns] at hr
      all_goals cases hr
    | term r =>
      show (terminateStep s r).status = ExpStatus.notStarted →
        (terminateStep s r).nodes = []
      unfold terminateStep
      split
      · intro hns
        cases hns
      · exact h

/-! Concrete inputs used by witnesses and counterexamples. -/

def env0 : SSHEnv := ⟨some "user", none, some "/cert", true⟩

def goodNode : MVal :=
  .dict [("@client_id", .str "node1"),
         ("host", .dict [("@name", .str "h1"), ("@ipv4", .str "10.0.0.1")])]

def goodDoc : Mdoc := [("rspec", .dict [("node", goodNode)])]

/-- C1: For every sequence of transport status responses and every poll
budget, start_and_wait returns only the Ready state or the Failed state:
it never returns while the experiment state is Provisioning, Provisioned,
NotStarted, or Unknown, and when the poll budget is exhausted without
reaching a terminal state the state is forced to Failed before returning
(the final check at experiment.py:151-154 turns every remaining non-ready
non-failed status into failed, and null is unreachable there). -/
theorem startAndWait_returns_ready_or_failed (env : SSHEnv) (pollMax : Nat)
    (s : Exp) (o : SWOracle) :
    (startAndWait env pollMax s o).1.status = ExpStatus.ready ∨
      (startAndWait env pollMax s o).1.status = ExpStatus.failed :=
  startAndWait_terminal env pollMax s o

/-- C3 counterexample: after a check_status that classifies the experiment
ready and parses one node, a successful terminate leaves the state null
with a non-empty node map, so the node map is not empty even though the
state is not Ready. -/
theorem nodes_nonempty_after_terminate :
    (terminateStep
        (getStatus env0 initExp
          ⟨⟨RspCode.success, "Status: ready"⟩, some [goodDoc]⟩)
        ⟨RspCode.success, ""⟩).status ≠ ExpStatus.ready ∧
    (terminateStep
        (getStatus env0 initExp
          ⟨⟨RspCode.success, "Status: ready"⟩, some [goodDoc]⟩)
        ⟨RspCode.success, ""⟩).nodes ≠ [] := by
  constructor
  · decide
  · intro h
    have h1 : (terminateStep
        (getStatus env0 initExp
          ⟨⟨RspCode.success, "Status: ready"⟩, some [goodDoc]⟩)
        ⟨RspCode.success, ""⟩).nodes.length = 1 := by decide
    rw [h] at h1
    cases h1

/-- C3 amended: the node map of an Experiment Controller is empty whenever
the state is NotStarted; nodes are cleared exactly on the
no-such-experiment response, and they persist across other non-Ready
transitions (Failed, Unknown, Null after terminate). -/
theorem nodes_empty_when_notStarted (env : SSHEnv) (ops : List ExpOp)
    (h : (runOps env initExp ops).status = ExpStatus.notStarted) :
    (runOps env initExp ops).nodes = [] :=
  runOps_inv env ops initExp (fun _ => rfl) h

theorem nodes_empty_when_notStarted_witness :
    (runOps env0 initExp []).status = ExpStatus.notStarted ∧
      (runOps env0 initExp []).nodes = [] :=
  ⟨rfl, nodes_empty_when_notStarted env0 [] rfl⟩

/-- C5: terminate issues one teardown call; on transport success the state
is forced to Null, and on any failure result the whole state (including
the node map) is left unchanged, nothing is raised (the payload always
carries the output field read for logging, per the transport contract),
and the current state is returned. -/
theorem terminate_success_null_failure_unchanged (s : Exp) (r : RpcResult) :
    (r.code = RspCode.success →
      terminateStep s r = { s with status := ExpStatus.null }) ∧
    (r.code ≠ RspCode.success → terminateStep s r = s) := by
  constructor
  · intro h
    simp [terminateStep, h]
  · intro h
    simp [terminateStep, h]

theorem terminate_success_null_failure_unchanged_witness :
    terminateStep initExp ⟨RspCode.success, ""⟩ =
      { initExp with status := ExpStatus.null } ∧
    terminateStep initExp ⟨RspCode.error, "boom"⟩ = initExp :=
  ⟨(terminate_success_null_failure_unchanged initExp ⟨RspCode.success, ""⟩).1 rfl,
   (terminate_success_null_failure_unchanged initExp
      ⟨RspCode.error, "boom"⟩).2 (by decide)⟩

/-- C2: the classifier in _get_status always resolves the experiment to
one of the six states other than Null, and any unrecognized status line
(no known prefix matches) that contains the in-progress marker UUID: is
classified as Provisioning, never as Failed. -/
theorem getStatus_classifier_conservative (env : SSHEnv) (s : Exp)
    (c : StatusCall) :
    (getStatus env s c).status ≠ ExpStatus.null ∧
    (c.rpc.code = RspCode.success →
      strStarts (pyStrip c.rpc.output) "Status: ready" = false →
      strStarts (pyStrip c.rpc.output) "Status: provisioning" = false →
      strStarts (pyStrip c.rpc.output) "Status: provisioned" = false →
      strStarts (pyStrip c.rpc.output) "Status: failed" = false →
      strContains (pyStrip c.rpc.output) "UUID:" = true →
      (getStatus env s c).status = ExpStatus.provisioning) := by
  refine ⟨getStatus_ne_null env s c, ?_⟩
  intro hc h1 h2 h3 h4 h5
  simp [getStatus, hc, h1, h2, h3, h4, h5]

def c2call : StatusCall := ⟨⟨RspCode.success, "strange line UUID: 42"⟩, none⟩

theorem getStatus_classifier_conservative_witness :
    (getStatus env0 initExp c2call).status = ExpStatus.provisioning :=
  (getStatus_classifier_conservative env0 initExp c2call).2 rfl
    (by decide) (by decide) (by decide) (by decide) (by decide)

/-- C4 counterexample: check_status reports Ready with an empty node map
(the manifest fetch inside _get_status yields nothing), the single
re-fetch at experiment.py:83 also yields nothing, yet start_and_wait
returns Ready with an empty node map instead of declaring Failed. -/
def c4oracle : SWOracle :=
  ⟨fun _ => ⟨⟨RspCode.success, "Status: ready"⟩, none⟩,
   ⟨RspCode.success, ""⟩, ⟨RspCode.success, ""⟩, none⟩

theorem early_ready_empty_nodes_returns_ready :
    (startAndWait env0 90 initExp c4oracle).1.status = ExpStatus.ready ∧
    (startAndWait env0 90 initExp c4oracle).1.nodes = [] ∧
    (startAndWait env0 90 initExp c4oracle).2 = 1 := by
  refine ⟨by decide, rfl, by decide⟩

/-- C4 amended: when the first check_status reports Ready with an empty
node map, start_and_wait performs exactly one re-fetch-and-parse of the
manifest; if the re-parse raises it declares the experiment Failed,
otherwise it returns Ready even when the node map is still empty, with
the node map set to whatever the re-parse produced. -/
theorem early_ready_single_refetch (env : SSHEnv) (pollMax : Nat) (s : Exp)
    (o : SWOracle)
    (h1 : (getStatus env s (o.statusCalls 0)).status = ExpStatus.ready)
    (h2 : (getStatus env s (o.statusCalls 0)).nodes = []) :
    (startAndWait env pollMax s o).2 = 1 ∧
    (startAndWait env pollMax s o).1.nodes =
      (parseAllManifests env [] o.refetch).1 ∧
    ((parseAllManifests env [] o.refetch).2 = true →
      (startAndWait env pollMax s o).1.status = ExpStatus.failed) ∧
    ((parseAllManifests env [] o.refetch).2 = false →
      (startAndWait env pollMax s o).1.status = ExpStatus.ready) := by
  unfold startAndWait
  generalize hg : getStatus env s (o.statusCalls 0) = s1 at h1 h2 ⊢
  obtain ⟨st, sp, nds, mf⟩ := s1
  replace h1 : st = ExpStatus.ready := h1
  replace h2 : nds = [] := h2
  subst h1
  subst h2
  dsimp only
  cases hpr : (parseAllManifests env [] o.refetch).2
  · simp [hpr]
  · simp [hpr]

def c4goodOracle : SWOracle :=
  ⟨fun _ => ⟨⟨RspCode.success, "Status: ready"⟩, none⟩,
   ⟨RspCode.success, ""⟩, ⟨RspCode.success, ""⟩, some [goodDoc]⟩

theorem early_ready_single_refetch_witness :
    (startAndWait env0 90 initExp c4goodOracle).2 = 1 ∧
    (startAndWait env0 90 initExp c4goodOracle).1.status = ExpStatus.ready := by
  have h := early_ready_single_refetch env0 90 initExp c4goodOracle
    (by decide) rfl
  exact ⟨h.1, h.2.2.2 (by decide)⟩

/-! Lemmas about the connect loop of SSHConnection.open. -/

theorem openLoopAux_zero (hp : Bool) (o : Nat → Attempt) (rc : Nat)
    (s : List Nat) : openLoopAux hp o 0 rc s = .error .connectionFailed s := rfl

theorem openLoopAux_succ (hp : Bool) (o : Nat → Attempt) (fuel rc : Nat)
    (s : List Nat) :
    openLoopAux hp o (fuel + 1) rc s =
      match attemptStep hp (o rc) with
      | .success => .ok s
      | .fail e => .error e s
      | .retry =>
        if rc + 1 < maxRetries then
          openLoopAux hp o fuel (rc + 1) (s ++ [(rc + 1) * backoffUnit])
        else openLoopAux hp o fuel (rc + 1) s := rfl

theorem openLoopAux_congr (hp : Bool) (o o' : Nat → Attempt) :
    ∀ (fuel rc : Nat) (s : List Nat),
      (∀ n, rc ≤ n → n < rc + fuel → o n = o' n) →
      openLoopAux hp o fuel rc s = openLoopAux hp o' fuel rc s := by
  intro fuel
  induction fuel with
  | zero => intro rc s _; rfl
  | succ f ih =>
    intro rc s h
    rw [openLoopAux_succ, openLoopAux_succ, h rc (le_refl rc) (by omega)]
    cases attemptStep hp (o' rc) with
    | success => rfl
    | fail e => rfl
    | retry =>
      dsimp only
      split
      · exact ih (rc + 1) _ (fun n hn1 hn2 => h n (by omega) (by omega))
      · exact ih (rc + 1) _ (fun n hn1 hn2 => h n (by omega) (by omega))

/-- C6: open retries the connection only for transient outcomes (an
attempt whose step result is retry: end-of-stream, timeout, an unexpected
state after the host-key confirmation, or a caught pexpect exception),
makes at most 4 connect attempts (the result depends only on the oracle
at attempts 0..3) with linear backoff (attempt number times 2 seconds)
between attempts, raises immediately with zero retries and zero sleeps on
permission-denied (or any other non-transient failure), raises a
connection-failed error after exhausting all attempts with backoff sleeps
2, 4, 6, and two timeouts followed by a successful third attempt perform
exactly the two backoff sleeps 2 and 4. -/
theorem open_retry_policy :
    (∀ (d : SSHInitData) (u : String) (o : Nat → Attempt),
      d.username = some u → o 0 = Attempt.denied →
      sshOpen d o = .error .permissionDenied []) ∧
    (∀ (d : SSHInitData) (u : String) (o : Nat → Attempt),
      d.username = some u → o 0 = Attempt.timeout → o 1 = Attempt.timeout →
      o 2 = Attempt.prompt → sshOpen d o = .ok [2, 4]) ∧
    (∀ (d : SSHInitData) (u : String) (o : Nat → Attempt),
      d.username = some u →
      (∀ n, attemptStep (truthyS d.password) (o n) = .retry) →
      sshOpen d o = .error .connectionFailed [2, 4, 6]) ∧
    (∀ (d : SSHInitData) (u : String) (o : Nat → Attempt) (e : OpenError),
      d.username = some u →
      attemptStep (truthyS d.password) (o 0) = .fail e →
      sshOpen d o = .error e []) ∧
    (∀ (d : SSHInitData) (o o' : Nat → Attempt),
      (∀ n, n < maxRetries → o n = o' n) → sshOpen d o = sshOpen d o') := by
  refine ⟨?_, ?_, ?_, ?_, ?_⟩
  · intro d u o hu h0
    unfold sshOpen
    rw [hu]
    show openLoopAux (truthyS d.password) o (3 + 1) 0 [] =
      .error .permissionDenied []
    rw [openLoopAux_succ, h0]
    rfl
  · intro d u o hu h0 h1 h2
    unfold sshOpen
    rw [hu]
    show openLoopAux (truthyS d.password) o (3 + 1) 0 [] = .ok [2, 4]
    rw [openLoopAux_succ, h0]
    show openLoopAux (truthyS d.password) o (2 + 1) 1 [2] = .ok [2, 4]
    rw [openLoopAux_succ, h1]
    show openLoopAux (truthyS d.password) o (1 + 1) 2 [2, 4] = .ok [2, 4]
    rw [openLoopAux_succ, h2]
    rfl
  · intro d u o hu h
    unfold sshOpen
    rw [hu]
    show openLoopAux (truthyS d.password) o (3 + 1) 0 [] =
      .error .connectionFailed [2, 4, 6]
    rw [openLoopAux_succ, h 0]
    show openLoopAux (truthyS d.password) o (2 + 1) 1 [2] =
      .error .connectionFailed [2, 4, 6]
    rw [openLoopAux_succ, h 1]
    show openLoopAux (truthyS d.password) o (1 + 1) 2 [2, 4] =
      .error .connectionFailed [2, 4, 6]
    rw [openLoopAux_succ, h 2]
    show openLoopAux (truthyS d.password) o (0 + 1) 3 [2, 4, 6] =
      .error .connectionFailed [2, 4, 6]
    rw [openLoopAux_succ, h 3]
    rfl
  · intro d u o e hu hstep
    unfold sshOpen
    rw [hu]
    show openLoopAux (truthyS d.password) o (3 + 1) 0 [] = .error e []
    rw [openLoopAux_succ, hstep]
  · intro d o o' h
    unfold sshOpen
    cases d.username with
    | none => rfl
    | some u =>
      exact openLoopAux_congr (truthyS d.password) o o' maxRetries 0 []
        (fun n hn1 hn2 => h n (by omega))

def dOpen : SSHInitData := ⟨defaultPrompt, "10.0.0.1", some "user", none, "/cert"⟩

def orE : Nat → Attempt :=
  fun n => if n = 0 then .timeout else if n = 1 then .timeout else .prompt

theorem open_retry_policy_witness : sshOpen dOpen orE = .ok [2, 4] :=
  open_retry_policy.2.1 dOpen "user" orE rfl rfl rfl rfl

/-- C7: command on a channel that is not open raises a connection error
immediately without sending anything or performing any I/O; on an open
channel an end-of-stream outcome raises an aborted-connection error, and
a timeout outcome raises a command-timeout error while leaving the
channel open. -/
theorem command_channel_errors :
    (∀ (before : String) (race : CmdRace),
      sshCommand false before race =
        ⟨Except.error CmdError.notOpen, false, false⟩) ∧
    (∀ before : String,
      sshCommand true before CmdRace.eof =
        ⟨Except.error CmdError.aborted, true, true⟩) ∧
    (∀ before : String,
      sshCommand true before CmdRace.timeout =
        ⟨Except.error CmdError.timedOut, true, true⟩) :=
  ⟨fun _ _ => rfl, fun _ => rfl, fun _ => rfl⟩

/-- C10: when the SSHConnection constructor is called with an explicit
non-None username, the username attribute is never assigned (assignment
only happens on the username-is-None branch reading USER), so every
subsequent open, copy_to (with an existing local file), or copy_from on
that instance fails with an AttributeError when it reads self.username. -/
theorem ssh_explicit_username_never_assigned (env : SSHEnv)
    (ip u pr : String) (d : SSHInitData)
    (h : sshInit env ip (some u) pr = .ok d) :
    d.username = none ∧
    (∀ o : Nat → Attempt, sshOpen d o = .error .attributeError []) ∧
    (∀ r : ScpOutcome, copyTo d true r = .error .attributeError) ∧
    (∀ r : ScpOutcome, copyFrom d r = .error .attributeError) := by
  have hu : d.username = none := by
    unfold sshInit at h
    dsimp only at h
    repeat' split at h
    all_goals cases h
    rfl
  refine ⟨hu, ?_, ?_, ?_⟩
  · intro o
    unfold sshOpen
    rw [hu]
  · intro r
    unfold copyTo
    rw [hu]
    rfl
  · intro r
    unfold copyFrom
    rw [hu]

def envC10 : SSHEnv := ⟨some "alice", none, some "/key", true⟩

def dC10 : SSHInitData := ⟨defaultPrompt, "10.0.0.2", none, none, "/key"⟩

theorem ssh_explicit_username_never_assigned_witness :
    dC10.username = none ∧
    sshOpen dC10 (fun _ => Attempt.prompt) = .error .attributeError [] ∧
    copyTo dC10 true (ScpOutcome.exitStatus 0 "") = .error .attributeError ∧
    copyFrom dC10 (ScpOutcome.exitStatus 0 "") = .error .attributeError := by
  have h := ssh_explicit_username_never_assigned envC10 "10.0.0.2" "bob"
    defaultPrompt dC10 rfl
  exact ⟨h.1, h.2.1 _, h.2.2.1 _, h.2.2.2 _⟩

/-! Claims about the manifest parser. -/

theorem filterMap_congr_mem {α β : Type} (f g : α → Option β) :
    ∀ l : List α, (∀ a ∈ l, f a = g a) → l.filterMap f = l.filterMap g := by
  intro l
  induction l with
  | nil => intro _; rfl
  | cons a t ih =>
    intro h
    rw [List.filterMap_cons, List.filterMap_cons, h a (List.mem_cons_self a t),
        ih (fun b hb => h b (List.mem_cons_of_mem a hb))]

def isListV : MVal → Bool
  | .list _ => true
  | _ => false

theorem asList_scalar (d : MVal) (h : isListV d = false) : asList d = [d] := by
  cases d with
  | str s => rfl
  | dict e => rfl
  | list l => simp [isListV] at h

/-- A manifest document with a single node entry. -/
def docScalar (d : MVal) : Mdoc := [("rspec", .dict [("node", d)])]

/-- The equivalent document whose node entry is a one-element list. -/
def docList (d : MVal) : Mdoc := [("rspec", .dict [("node", .list [d])])]

/-- A manifest document with a list of node descriptors. -/
def mkDoc (ds : List MVal) : Mdoc := [("rspec", .dict [("node", .list ds)])]

/-- C8 counterexample: a document whose node entry is a single scalar
descriptor with no fields yields zero nodes, not exactly one, because
malformed descriptors are dropped. -/
theorem scalar_descriptor_without_fields_yields_no_node :
    ¬((parseAllManifests env0 [] (some [docScalar (MVal.dict [])])).1.length = 1) := by
  decide

/-- C8 amended: for every environment and every scalar (non-list)
descriptor, malformed or not, parsing a manifest whose node entry is that
single scalar descriptor yields the same node set as parsing the
equivalent one-element-list manifest; it yields exactly one node when the
descriptor is valid and the environment lets Node construction succeed;
and for every environment and every manifest document whose parse raises
no exception, parsing the same document twice yields the same node set as
parsing it once. -/
theorem parse_scalar_list_idem :
    (∀ (env : SSHEnv) (d : MVal), isListV d = false →
      parseAllManifests env [] (some [docScalar d]) =
        parseAllManifests env [] (some [docList d])) ∧
    (∀ (env : SSHEnv) (d : MVal), isListV d = false →
      validDescriptor d = true → sshInitOk env = true →
      (parseAllManifests env [] (some [docScalar d])).1.length = 1) ∧
    (∀ (env : SSHEnv) (ms : Option (List Mdoc)),
      (parseAllManifests env [] ms).2 = false →
      parseAllManifests env (parseAllManifests env [] ms).1 ms =
        ((parseAllManifests env [] ms).1, false)) := by
  refine ⟨?_, ?_, ?_⟩
  · intro env d hscalar
    have e1 : parseAllManifests env [] (some [docScalar d]) =
        (processNodesData env [] d, false) := rfl
    have e2 : parseAllManifests env [] (some [docList d]) =
        (processNodesData env [] (MVal.list [d]), false) := rfl
    have e3 : processNodesData env [] d =
        processNodesData env [] (MVal.list [d]) := by
      unfold processNodesData
      rw [asList_scalar d hscalar]
      rfl
    rw [e1, e2, e3]
  · intro env d hscalar hvalid henv
    have e1 : parseAllManifests env [] (some [docScalar d]) =
        (processNodesData env [] d, false) := rfl
    rw [e1]
    show (processNodesData env [] d).length = 1
    rw [show processNodesData env [] d =
      (asList d).foldl (processNodeEntry env) [] from rfl,
      asList_scalar d hscalar]
    show (processNodeEntry env [] d).length = 1
    rw [processNodeEntry_eq, entryPair_eq_descriptorPair env d henv]
    rcases hdp : descriptorPair d with _ | p
    · unfold validDescriptor at hvalid
      rw [hdp] at hvalid
      cases hvalid
    · rfl
  · intro env ms hnr
    cases ms with
    | none => rfl
    | some msl =>
      have hall := parseMList_result_noraise env msl [] hnr
      have hp1 := parseMList_noraise env msl [] hall
      show parseMList env (parseMList env [] msl).1 msl =
        ((parseMList env [] msl).1, false)
      rw [hp1]
      show parseMList env (runIns [] (docPairs env msl)) msl =
        (runIns [] (docPairs env msl), false)
      rw [parseMList_noraise env msl (runIns [] (docPairs env msl)) hall,
          runIns_idem]

theorem parse_scalar_list_idem_witness :
    parseAllManifests env0 [] (some [docScalar (MVal.dict [])]) =
      parseAllManifests env0 [] (some [docList (MVal.dict [])]) ∧
    (parseAllManifests env0 [] (some [docScalar goodNode])).1.length = 1 ∧
    parseAllManifests env0 (parseAllManifests env0 [] (some [goodDoc])).1
        (some [goodDoc]) =
      ((parseAllManifests env0 [] (some [goodDoc])).1, false) :=
  ⟨parse_scalar_list_idem.1 env0 (MVal.dict []) rfl,
   parse_scalar_list_idem.2.1 env0 goodNode rfl (by decide) (by decide),
   parse_scalar_list_idem.2.2 env0 (some [goodDoc]) (by decide)⟩

/-- C9 counterexample: two identical valid descriptors collapse to one
entry of the node dict, so the node count is 1 while the claimed count
(input descriptors minus malformed descriptors) is 2. -/
theorem duplicate_client_ids_break_count :
    ¬((parseAllManifests env0 [] (some [mkDoc [goodNode, goodNode]])).1.length =
      ([goodNode, goodNode] : List MVal).length -
        ([goodNode, goodNode] : List MVal).countP
          (fun n => !(validDescriptor n))) := by
  decide

/-- C9 amended: for a manifest document built from a list of node
descriptors, in an environment where Node construction succeeds and when
the valid descriptors carry pairwise distinct client ids, parsing raises
no exception, every malformed descriptor (missing or falsy @client_id,
non-string @client_id, missing host dict, missing or falsy @name or
@ipv4, or a non-dict descriptor) is excluded while the rest are parsed,
and the node count equals the number of input descriptors minus the
number of malformed descriptors. -/
theorem parse_skips_malformed_count (env : SSHEnv) (ds : List MVal)
    (henv : sshInitOk env = true)
    (hdist : (keysOf (ds.filterMap descriptorPair)).Nodup) :
    (parseAllManifests env [] (some [mkDoc ds])).2 = false ∧
    (parseAllManifests env [] (some [mkDoc ds])).1.length =
      ds.length - ds.countP (fun n => !(validDescriptor n)) := by
  have hall : ∀ m ∈ [mkDoc ds], manifestRaises m = false := by
    intro m hm
    rcases List.mem_singleton.mp hm with rfl
    rfl
  have hp := parseMList_noraise env [mkDoc ds] [] hall
  have heq : parseAllManifests env [] (some [mkDoc ds]) =
      parseMList env [] [mkDoc ds] := rfl
  rw [heq, hp]
  have hdp : docPairs env [mkDoc ds] = ds.filterMap (entryPair env) := by
    show manifestPairs env (mkDoc ds) ++ [] = ds.filterMap (entryPair env)
    rw [List.append_nil]
    rfl
  have hfm : ds.filterMap (entryPair env) = ds.filterMap descriptorPair :=
    filterMap_congr_mem _ _ ds (fun n _ => entryPair_eq_descriptorPair env n henv)
  constructor
  · rfl
  · show (runIns [] (docPairs env [mkDoc ds])).length =
      ds.length - ds.countP (fun n => !(validDescriptor n))
    rw [hdp, hfm]
    rw [runIns_length (ds.filterMap descriptorPair) [] hdist
      (fun p _ hmem => by rw [keysOf_nil] at hmem; cases hmem)]
    rw [length_filterMap_countP]
    rw [show (fun a : MVal => (descriptorPair a).isSome) = validDescriptor
      from rfl]
    have hc := countP_add_countP_not validDescriptor ds
    simp only [List.length_nil]
    omega

theorem parse_skips_malformed_count_witness :
    (parseAllManifests env0 [] (some [mkDoc [goodNode, MVal.dict []]])).2 =
      false ∧
    (parseAllManifests env0 []
        (some [mkDoc [goodNode, MVal.dict []]])).1.length =
      ([goodNode, MVal.dict []] : List MVal).length -
        ([goodNode, MVal.dict []] : List MVal).countP
          (fun n => !(validDescriptor n)) :=
  parse_skips_malformed_count env0 [goodNode, MVal.dict []] (by decide)
    (by decide)

end Powder
